import Mathlib

/-!
Verification development for the `mcp-doc` retrieval pipeline.

The development shallowly embeds the three Python modules of the repository:

* `doc_utils.py`   — HTML text extraction (`bs4_extractor`), token counting
  (`count_tokens`) and configuration-driven document loading
  (`load_langgraph_docs`).
* `vectorstore_utils.py` — persistence of the similarity index
  (`load_vectorstore`, `create_vectorstore`, `PERSIST_PATH`).
* `langgraph-mcp.py` — the query tool (`langgraph_query_tool`).

Modelling conventions: Python strings are `List Char`; a fallible Python
expression is an `Except PyErr` value, where `PyErr` names the exception
classes the code can raise; calls into external libraries that are pure
data-in/data-out (the tiktoken encoder, the HTTP document loader, the
embedding similarity score) are parameters of the embedded functions, so
every theorem quantifies over their behaviour.  Logging calls have no
functional effect and are not modelled.
-/

/-- Exceptions the embedded code can raise. -/
inductive PyErr where
  | keyError (k : List Char)
  | attributeError
  | typeError
  | exception
deriving DecidableEq

/-- The two exception classes `load_langgraph_docs` catches when reading
`langraph-doc.yaml`: `FileNotFoundError` and `yaml.YAMLError`. -/
inductive ConfigError where
  | fileNotFound
  | yamlError
deriving DecidableEq

/-- YAML values as produced by `yaml.safe_load`: null, strings, sequences and
(insertion-ordered) mappings.  Scalar kinds other than strings are irrelevant
to the configuration schema and are represented as strings. -/
inductive Yaml where
  | ynull
  | ystr (s : List Char)
  | ylist (items : List Yaml)
  | ydict (entries : List (List Char × Yaml))

/-- Ordered association-list lookup, the semantics of indexing a Python dict. -/
def alookup : List (List Char × Yaml) → List Char → Option Yaml
  | [], _ => none
  | (k, v) :: rest, key => if k = key then some v else alookup rest key

/-- Python `obj.get(key, default)`: only dicts have `.get`; any other value
raises `AttributeError`. -/
def pyGet (y : Yaml) (k : List Char) (dflt : Yaml) : Except PyErr Yaml :=
  match y with
  | .ydict es => .ok ((alookup es k).getD dflt)
  | _ => .error .attributeError

/-- Python `obj.items()`: only dicts have `.items`. -/
def pyItems (y : Yaml) : Except PyErr (List (List Char × Yaml)) :=
  match y with
  | .ydict es => .ok es
  | _ => .error .attributeError

/-- Python `key in obj` for a string `key`: key test on dicts, membership on
lists, substring test on strings, `TypeError` on `None`. -/
def pyContains (y : Yaml) (k : List Char) : Except PyErr Bool :=
  match y with
  | .ydict es => .ok (es.any (fun p => decide (p.1 = k)))
  | .ylist xs => .ok (xs.any (fun v => match v with
      | .ystr s => decide (s = k)
      | _ => false))
  | .ystr s => .ok (decide (k <:+: s))
  | .ynull => .error .typeError

/-- Python `obj[key]` for a string `key`: dict lookup raising `KeyError` when
absent; any non-dict raises `TypeError` for a string subscript. -/
def pySubscript (y : Yaml) (k : List Char) : Except PyErr Yaml :=
  match y with
  | .ydict es =>
      match alookup es k with
      | some v => .ok v
      | none => .error (.keyError k)
  | _ => .error .typeError

/-- Python iteration `for x in obj`: list items, dict keys, the characters of
a string, `TypeError` on `None`. -/
def pyIterList (y : Yaml) : Except PyErr (List Yaml) :=
  match y with
  | .ylist xs => .ok xs
  | .ydict es => .ok (es.map (fun p => .ystr p.1))
  | .ystr s => .ok (s.map (fun c => .ystr [c]))
  | .ynull => .error .typeError

/-- A loaded document; only its text matters to the verified properties.
Mirrors the langchain `Document` objects flowing through `doc_utils.py`. -/
structure Document where
  page_content : List Char
deriving DecidableEq

/-- `doc_utils.count_tokens`: the length of the token list the tiktoken
encoder (a parameter `enc`, external library code) produces for `text`. -/
def count_tokens (enc : List Char → List Nat) (text : List Char) : Nat :=
  (enc text).length

/-- The comprehension `[guide["url"] for guide in gs]` from
`load_langgraph_docs` (the branch taken when `"guides" in content`). -/
def guideUrls (gs : List Yaml) : Except PyErr (List Yaml) :=
  gs.mapM (fun g => pySubscript g ("url".data))

/-- The comprehension
`[link["url"] for guide in gs for link in guide["links"]]` from
`load_langgraph_docs` (the branch taken when `"links" in content`). -/
def linkUrls (gs : List Yaml) : Except PyErr (List Yaml) :=
  (gs.mapM (fun g => do
      let ls ← pySubscript g ("links".data)
      let ll ← pyIterList ls
      ll.mapM (fun l => pySubscript l ("url".data)))).map List.flatten

/-- The URL-extraction loop of `doc_utils.load_langgraph_docs`
(lines 61–68), translated statement by statement.  Note that the `elif`
branch tests `"links" in content` but then subscripts `content["guides"]`,
exactly as the Python source does. -/
def extract_urls (langraph_doc : Yaml) : Except PyErr (List (List Char × List Yaml)) := do
  let lg ← pyGet langraph_doc ("langraph".data) (.ydict [])
  let entries ← pyItems lg
  entries.foldlM (fun urls p => do
      let category := p.1
      let content := p.2
      let hasGuides ← pyContains content ("guides".data)
      if hasGuides then do
        let gsY ← pySubscript content ("guides".data)
        let gs ← pyIterList gsY
        let us ← guideUrls gs
        pure (urls ++ [(category, us)])
      else do
        let hasLinks ← pyContains content ("links".data)
        if hasLinks then do
          let gsY ← pySubscript content ("guides".data)
          let gs ← pyIterList gsY
          let us ← linkUrls gs
          pure (urls ++ [(category, us)])
        else
          pure urls)
    []

/-- `doc_utils.load_langgraph_docs`.  `readConfig` is the outcome of opening
and parsing `langraph-doc.yaml` (the two caught exception classes are the
`ConfigError` cases); `fetch` is the external `RecursiveUrlLoader` giving the
documents crawled from one URL value; `enc` is the tiktoken encoder. -/
def load_langgraph_docs (fetch : Yaml → List Document) (enc : List Char → List Nat)
    (readConfig : Except ConfigError Yaml) :
    Except PyErr (List Document × List Nat) :=
  match readConfig with
  | .error _ => .ok ([], [])
  | .ok langraph_doc => do
      let urls ← extract_urls langraph_doc
      let docs := (urls.map (fun p => (p.2.map fetch).flatten)).flatten
      let tokens_per_doc := docs.map (fun d => count_tokens enc d.page_content)
      pure (docs, tokens_per_doc)

/-- A configuration with one category that carries only a `links` entry. -/
def linksOnlyConfig : Yaml :=
  .ydict [("langraph".data,
    .ydict [("how-tos".data,
      .ydict [("links".data,
        .ylist [.ydict [("url".data, .ystr ("https://example.org/a".data))]])])])]

/-- C1: the claim demands that the URL list contain the `url` field of every
link entry.  The code cannot do this for any configuration: its `elif` branch
tests `"links" in content` but then subscripts `content["guides"]`, so a
category carrying only `links` raises `KeyError("guides")` out of
`load_langgraph_docs` instead of contributing its link URLs. -/
theorem c1_links_keyerror :
    ∀ (fetch : Yaml → List Document) (enc : List Char → List Nat),
      load_langgraph_docs fetch enc (.ok linksOnlyConfig) =
        .error (.keyError ("guides".data)) := by
  intro fetch enc
  rfl

/-- C4: a missing or unparseable configuration file (the two exception
classes caught in `load_langgraph_docs`) yields the empty result
`([], [])` instead of propagating the exception. -/
theorem c4_config_error_empty :
    ∀ (fetch : Yaml → List Document) (enc : List Char → List Nat) (e : ConfigError),
      load_langgraph_docs fetch enc (.error e) = .ok ([], []) := by
  intro fetch enc e
  rfl

/-- C9: whenever `load_langgraph_docs` returns, the token-count list has the
same length as the document list, and its `i`-th entry is `count_tokens` of
the `i`-th document's `page_content`. -/
theorem c9_token_counts
    (fetch : Yaml → List Document) (enc : List Char → List Nat)
    (readConfig : Except ConfigError Yaml)
    (docs : List Document) (toks : List Nat)
    (h : load_langgraph_docs fetch enc readConfig = .ok (docs, toks)) :
    toks.length = docs.length ∧
      ∀ i : Nat, toks[i]? = Option.map (fun (d : Document) => count_tokens enc d.page_content) docs[i]? := by
  have htoks : toks = docs.map (fun d => count_tokens enc d.page_content) := by
    cases readConfig with
    | error e =>
        simp only [load_langgraph_docs, Except.ok.injEq, Prod.mk.injEq] at h
        rw [← h.1, ← h.2]
        rfl
    | ok y =>
        cases hx : extract_urls y with
        | error e =>
            simp only [load_langgraph_docs, hx, bind, Except.bind] at h
            exact Except.noConfusion h
        | ok urls =>
            simp only [load_langgraph_docs, hx, bind, Except.bind, pure, Except.pure,
              Except.ok.injEq, Prod.mk.injEq] at h
            rw [← h.1, ← h.2]
  subst htoks
  refine ⟨List.length_map _ _, ?_⟩
  intro i
  exact List.getElem?_map _ _ _

/-- Concrete data exercising `c9_token_counts`: a one-guide configuration, a
fetcher returning one document per URL, and a two-token encoder. -/
def c9Fetch : Yaml → List Document := fun _ => [⟨"hi".data⟩]

def c9Enc : List Char → List Nat := fun s => s.map (fun _ => 0)

def c9Config : Yaml :=
  .ydict [("langraph".data,
    .ydict [("concepts".data,
      .ydict [("guides".data,
        .ylist [.ydict [("url".data, .ystr ("https://example.org/g".data))]])])])]

theorem c9_token_counts_witness :
    load_langgraph_docs c9Fetch c9Enc (.ok c9Config) = .ok ([⟨"hi".data⟩], [2]) ∧
      (([2] : List Nat).length = ([⟨"hi".data⟩] : List Document).length ∧
        ∀ i : Nat, ([2] : List Nat)[i]? =
          Option.map (fun (d : Document) => count_tokens c9Enc d.page_content)
            ([⟨"hi".data⟩] : List Document)[i]?) :=
  ⟨rfl, c9_token_counts c9Fetch c9Enc (.ok c9Config) [⟨"hi".data⟩] [2] rfl⟩

/-- Contents of the persisted index file.  `good` holds the serialized vector
records; `corrupt` stands for any file contents whose deserialization raises
(the `except Exception` arm of `load_vectorstore`). -/
inductive FileData where
  | good (records : List Document)
  | corrupt
deriving DecidableEq

/-- The filesystem, as the code observes it: the optional contents at each
path. -/
def FS : Type := List Char → Option FileData

/-- `vectorstore_utils.PERSIST_PATH` (the `os.getcwd()` prefix is irrelevant
to the semantics and omitted). -/
def PERSIST_PATH : List Char := "sklearn_vectorstore.parquet".data

/-- An in-memory `SKLearnVectorStore`; what the verified properties need from
it is the set of persisted records. -/
structure Store where
  records : List Document
deriving DecidableEq

/-- Modelled from the spec: constructing an `SKLearnVectorStore` from a
persisted file (library code, `SKLearnVectorStore.__init__` with a
`persist_path`) deserializes the records, raising on a corrupt file —
"Load: reads the persisted file into memory if present". -/
def constructStore : FileData → Except PyErr Store
  | .good ds => .ok ⟨ds⟩
  | .corrupt => .error .exception

/-- `vectorstore_utils.load_vectorstore`: returns `none` when `PERSIST_PATH`
does not exist, otherwise constructs the store, catching any exception and
returning `none` in that case.  The function is total: it never raises. -/
def load_vectorstore (fs : FS) : Option Store :=
  match fs PERSIST_PATH with
  | none => none
  | some d =>
      match constructStore d with
      | .ok s => some s
      | .error _ => none

/-- `vectorstore_utils.create_vectorstore`: builds the store from the chunks
and persists it at `PERSIST_PATH` (the write itself is library code,
modelled from the spec: "Build: ... writes all vectors and metadata to a
persisted file (one file = one full index, overwritten on rebuild)"). -/
def create_vectorstore (fs : FS) (splits : List Document) : FS × Store :=
  (fun p => if p = PERSIST_PATH then some (.good splits) else fs p, ⟨splits⟩)

/-- Insertion step of the similarity ranking. -/
def insertLe (le : Document → Document → Bool) (x : Document) : List Document → List Document
  | [] => [x]
  | y :: rest => if le x y then x :: y :: rest else y :: insertLe le x rest

/-- Stable insertion sort used to model the similarity ranking. -/
def sortLe (le : Document → Document → Bool) : List Document → List Document
  | [] => []
  | x :: rest => insertLe le x (sortLe le rest)

/-- Modelled from the spec: the similarity search of the library vector
store — "Query: given a text query and a result count k, embeds the query
and returns the k nearest chunks by vector similarity".  `sim` is the
(external) embedding similarity score of a record against the query. -/
def similarity_search (sim : List Char → List Char → Nat) (s : Store)
    (q : List Char) (k : Nat) : List Document :=
  (sortLe (fun d₁ d₂ => decide (sim q d₂.page_content ≤ sim q d₁.page_content)) s.records).take k

/-- C3: `load_vectorstore` returns the absent sentinel `none` both when the
index file is missing and when constructing the store from the file raises;
being a total function into `Option Store`, it never raises. -/
theorem c3_load_never_raises (fs : FS) :
    (fs PERSIST_PATH = none → load_vectorstore fs = none) ∧
      (∀ d e, fs PERSIST_PATH = some d → constructStore d = .error e →
        load_vectorstore fs = none) := by
  constructor
  · intro h
    simp [load_vectorstore, h]
  · intro d e hd he
    simp [load_vectorstore, hd, he]

/-- The two filesystem states exercising `c3_load_never_raises`: no file at
all, and a corrupt file at every path. -/
def fsEmpty : FS := fun _ => none

def fsCorrupt : FS := fun _ => some .corrupt

theorem c3_load_never_raises_witness :
    (fsEmpty PERSIST_PATH = none ∧ load_vectorstore fsEmpty = none) ∧
      (fsCorrupt PERSIST_PATH = some .corrupt ∧
        constructStore .corrupt = .error .exception ∧
        load_vectorstore fsCorrupt = none) :=
  ⟨⟨rfl, (c3_load_never_raises fsEmpty).1 rfl⟩,
   ⟨rfl, rfl, (c3_load_never_raises fsCorrupt).2 .corrupt .exception rfl rfl⟩⟩

/-- Decimal digit characters, as rendered by a Python f-string. -/
def digitChar (d : Nat) : Char :=
  (['0', '1', '2', '3', '4', '5', '6', '7', '8', '9'].get? d).getD '0'

/-- Worker for the decimal rendering, structurally recursive on a fuel that
bounds the number of digits. -/
def natDigitsCore : Nat → Nat → List Char → List Char
  | 0, _, acc => acc
  | fuel + 1, n, acc =>
      if n < 10 then digitChar n :: acc
      else natDigitsCore fuel (n / 10) (digitChar (n % 10) :: acc)

/-- Decimal rendering of a natural number, as a Python f-string interpolates
an `int` (`n + 1` is always enough fuel: a number has at most `n + 1`
digits). -/
def natDigits (n : Nat) : List Char := natDigitsCore (n + 1) n []

/-- The constant part of the separator the query tool writes before each
retrieved document: `"==DOCUMENT "`. -/
def sepPat : List Char := "==DOCUMENT ".data

/-- The block the query tool produces for the `n`-th document (1-based):
`f"==DOCUMENT {n}==\n{page_content}"`. -/
def docBlock (n : Nat) (d : List Char) : List Char :=
  sepPat ++ natDigits n ++ '=' :: '=' :: '\n' :: d

/-- The joiner `"\n\n"`. -/
def nl2 : List Char := ['\n', '\n']

/-- The blocks for the documents, numbering from `n`; `blocksFrom 1` is the
list comprehension over `enumerate(relevant_docs)` in the query tool. -/
def blocksFrom : Nat → List (List Char) → List (List Char)
  | _, [] => []
  | n, d :: rest => docBlock n d :: blocksFrom (n + 1) rest

/-- Python `sep.join(parts)`. -/
def pyJoin (sep : List Char) : List (List Char) → List Char
  | [] => []
  | [x] => x
  | x :: y :: rest => x ++ sep ++ pyJoin sep (y :: rest)

/-- The `formatted_context` string built by `langgraph_query_tool` from the
texts of the retrieved documents:
`"\n\n".join([f"==DOCUMENT {i+1}==\n{doc.page_content}" for i, doc in enumerate(relevant_docs)])`. -/
def formatted_context (docs : List (List Char)) : List Char :=
  pyJoin nl2 (blocksFrom 1 docs)

/-- `langgraph_query_tool` from `langgraph-mcp.py`: loads the store, asks the
retriever for the top `k = 3` documents, and joins them with numbered
separators.  When `load_vectorstore` returns `None`, the attribute access
`None.as_retriever` raises `AttributeError`. -/
def langgraph_query_tool (fs : FS) (sim : List Char → List Char → Nat)
    (query : List Char) : Except PyErr (List Char) :=
  match load_vectorstore fs with
  | none => .error .attributeError
  | some vs =>
      .ok (formatted_context ((similarity_search sim vs query 3).map Document.page_content))

/-- C2: with no persisted index at `PERSIST_PATH`, every query raises
(`load_vectorstore` returns the sentinel and `.as_retriever` is an attribute
access on `None`) instead of returning a text block. -/
theorem c2_missing_index_raises (fs : FS) (sim : List Char → List Char → Nat)
    (query : List Char) (h : fs PERSIST_PATH = none) :
    langgraph_query_tool fs sim query = .error .attributeError := by
  simp [langgraph_query_tool, load_vectorstore, h]

theorem c2_missing_index_raises_witness :
    fsEmpty PERSIST_PATH = none ∧
      langgraph_query_tool fsEmpty (fun _ _ => 0) [] = .error .attributeError :=
  ⟨rfl, c2_missing_index_raises fsEmpty (fun _ _ => 0) [] rfl⟩

/-- Membership does not grow under the insertion step. -/
theorem mem_insertLe (le : Document → Document → Bool) (x y : Document)
    (l : List Document) (h : x ∈ insertLe le y l) : x = y ∨ x ∈ l := by
  induction l with
  | nil => simpa [insertLe] using h
  | cons z rest ih =>
      rw [insertLe] at h
      by_cases hle : le y z = true
      · rw [if_pos hle] at h
        simpa using h
      · rw [if_neg hle] at h
        rcases List.mem_cons.mp h with h' | h'
        · exact Or.inr (h' ▸ List.mem_cons_self z rest)
        · rcases ih h' with h'' | h''
          · exact Or.inl h''
          · exact Or.inr (List.mem_cons_of_mem z h'')

/-- The ranking is a rearrangement: it introduces no new records. -/
theorem mem_sortLe (le : Document → Document → Bool) (x : Document)
    (l : List Document) (h : x ∈ sortLe le l) : x ∈ l := by
  induction l with
  | nil => simpa [sortLe] using h
  | cons y rest ih =>
      rw [sortLe] at h
      rcases mem_insertLe le x y (sortLe le rest) h with h' | h'
      · exact h' ▸ List.mem_cons_self y rest
      · exact List.mem_cons_of_mem y (ih h')

/-- C8: after `create_vectorstore` builds and persists an index from a
non-empty chunk list, `load_vectorstore` returns a store (not the `none`
sentinel) holding exactly those chunks, and a `k = 3` similarity query on it
returns at most 3 records, each drawn from the original chunk list. -/
theorem c8_roundtrip (fs : FS) (splits : List Document)
    (sim : List Char → List Char → Nat) (q : List Char)
    (hne : splits ≠ []) :
    load_vectorstore (create_vectorstore fs splits).1 =
        some (create_vectorstore fs splits).2 ∧
      (similarity_search sim (create_vectorstore fs splits).2 q 3).length ≤ 3 ∧
      ∀ d ∈ similarity_search sim (create_vectorstore fs splits).2 q 3, d ∈ splits := by
  refine ⟨?_, ?_, ?_⟩
  · simp [create_vectorstore, load_vectorstore, constructStore]
  · rw [similarity_search, List.length_take]
    exact min_le_left _ _
  · intro d hd
    rw [similarity_search] at hd
    exact mem_sortLe _ d _ (List.take_subset _ _ hd)

/-- Concrete data exercising `c8_roundtrip`: one chunk, a constant
similarity score, the empty filesystem. -/
def c8Splits : List Document := [⟨"alpha".data⟩]

theorem c8_roundtrip_witness :
    c8Splits ≠ [] ∧
      (load_vectorstore (create_vectorstore fsEmpty c8Splits).1 =
          some (create_vectorstore fsEmpty c8Splits).2 ∧
        (similarity_search (fun _ _ => 0) (create_vectorstore fsEmpty c8Splits).2 [] 3).length ≤ 3 ∧
        ∀ d ∈ similarity_search (fun _ _ => 0) (create_vectorstore fsEmpty c8Splits).2 [] 3,
          d ∈ c8Splits) :=
  ⟨by decide, c8_roundtrip fsEmpty c8Splits (fun _ _ => 0) [] (by decide)⟩

/-- The parsed HTML tree `BeautifulSoup(html, "lxml")` hands to
`bs4_extractor` (parsing itself is library code): elements carry a tag name,
the values of their `class` attribute and their children; the leaves are text.
-/
inductive HtmlNode where
  | element (tag : List Char) (classes : List (List Char)) (children : List HtmlNode)
  | textNode (s : List Char)

/-- A parsed document: the top-level nodes of the page. -/
abbrev Soup := List HtmlNode

/- `node.get_text()` / `soup.text`: the concatenated text of a subtree. -/
mutual
def nodeText : HtmlNode → List Char
  | .textNode s => s
  | .element _ _ cs => forestText cs
def forestText : List HtmlNode → List Char
  | [] => []
  | n :: rest => nodeText n ++ forestText rest
end

/-- The selector of `soup.find("article", class_="md-content__inner")`: an
`article` element one of whose classes is `md-content__inner`. -/
def nodeMatches : HtmlNode → Bool
  | .element t cls _ => decide (t = "article".data) &&
      cls.any (fun c => decide (c = "md-content__inner".data))
  | .textNode _ => false

/- `soup.find(...)`: the first matching element in document order. -/
mutual
def findN : HtmlNode → Option HtmlNode
  | .textNode _ => none
  | .element t cls cs =>
      if nodeMatches (.element t cls cs) then some (.element t cls cs) else findF cs
def findF : List HtmlNode → Option HtmlNode
  | [] => none
  | n :: rest => match findN n with
      | some m => some m
      | none => findF rest
end

/- No node of the subtree matches the selector. -/
mutual
def noMatchN : HtmlNode → Bool
  | .textNode _ => true
  | .element t cls cs => !nodeMatches (.element t cls cs) && noMatchF cs
def noMatchF : List HtmlNode → Bool
  | [] => true
  | n :: rest => noMatchN n && noMatchF rest
end

/- When no node of the subtree matches, the search comes back empty. -/
mutual
def noMatchN_find : ∀ n : HtmlNode, noMatchN n = true → findN n = none
  | .textNode _ => fun _ => rfl
  | .element t cls cs => fun h => by
      rw [noMatchN] at h
      simp only [Bool.and_eq_true, Bool.not_eq_true'] at h
      rw [findN, if_neg (by simp [h.1]), noMatchF_find cs h.2]
def noMatchF_find : ∀ l : List HtmlNode, noMatchF l = true → findF l = none
  | [] => fun _ => rfl
  | n :: rest => fun h => by
      rw [noMatchF] at h
      simp only [Bool.and_eq_true] at h
      rw [findF, noMatchN_find n h.1, noMatchF_find rest h.2]
end

/-- Python whitespace, the characters `str.strip()` removes. -/
def isPyWS (c : Char) : Bool :=
  c = ' ' || c = '\t' || c = '\n' || c = '\r' || c = '\x0b' || c = '\x0c'

/-- Python `str.strip()`: drop whitespace from both ends. -/
def pyStrip (l : List Char) : List Char :=
  ((l.dropWhile isPyWS).reverse.dropWhile isPyWS).reverse

/-- One pass of `re.sub(r"\n\n+", "\n\n", s)`: `cnt` is the length (capped
at 2 by use) of the newline run currently being copied; once two newlines of
a run have been kept, the rest of the run is dropped. -/
def collapseAux : Nat → List Char → List Char
  | _, [] => []
  | cnt, c :: rest =>
      if c = '\n' then
        if 2 ≤ cnt then collapseAux cnt rest
        else '\n' :: collapseAux (cnt + 1) rest
      else
        c :: collapseAux 0 rest

/-- `re.sub(r"\n\n+", "\n\n", s)`: each maximal run of two or more newlines
becomes exactly two. -/
def collapseNL (l : List Char) : List Char := collapseAux 0 l

/-- The normalization `bs4_extractor` applies to whichever text it selected:
`re.sub(r"\n\n+", "\n\n", content).strip()`. -/
def normalizeText (l : List Char) : List Char := pyStrip (collapseNL l)

/-- `doc_utils.bs4_extractor`: the text of the matched `article` element if
the selector finds one, the text of the whole document otherwise, then the
whitespace normalization. -/
def bs4_extractor (soup : Soup) : List Char :=
  normalizeText (match findF soup with
    | some main_content => nodeText main_content
    | none => forestText soup)

/-- There is leading whitespace. -/
def hasLeadWS : List Char → Bool
  | [] => false
  | c :: _ => isPyWS c

/-- There is trailing whitespace (the head of the reversal is the last
character). -/
def hasTrailWS (l : List Char) : Bool := hasLeadWS l.reverse

/-- Some window of three consecutive characters is all newlines. -/
def hasTripleNL : List Char → Bool
  | a :: b :: c :: rest =>
      (decide (a = '\n') && decide (b = '\n') && decide (c = '\n')) ||
        hasTripleNL (b :: c :: rest)
  | _ => false

/-- Dropping leading whitespace leaves none. -/
theorem lead_dropWhile (l : List Char) : hasLeadWS (l.dropWhile isPyWS) = false := by
  induction l with
  | nil => rfl
  | cons c rest ih =>
      rw [List.dropWhile_cons]
      by_cases hc : isPyWS c = true
      · rw [if_pos hc]; exact ih
      · rw [if_neg hc, hasLeadWS]
        exact Bool.eq_false_iff.mpr hc

/-- A prefix of a string with no leading whitespace has none either. -/
theorem lead_of_pre (r m : List Char) (h : ∃ t, m = r ++ t)
    (hm : hasLeadWS m = false) : hasLeadWS r = false := by
  obtain ⟨t, rfl⟩ := h
  cases r with
  | nil => rfl
  | cons c r' => exact hm

/-- A three-newline window survives the removal of the first character. -/
theorem hasTripleNL_tail (x : Char) (l : List Char)
    (h : hasTripleNL (x :: l) = false) : hasTripleNL l = false := by
  cases l with
  | nil => rfl
  | cons y l' =>
      cases l' with
      | nil => rfl
      | cons z l'' =>
          rw [hasTripleNL] at h
          exact (Bool.or_eq_false_iff.mp h).2

/-- No triple newline in a concatenation means none in its right part. -/
theorem hasTripleNL_right (a b : List Char)
    (h : hasTripleNL (a ++ b) = false) : hasTripleNL b = false := by
  induction a with
  | nil => exact h
  | cons x a' ih => exact ih (hasTripleNL_tail x _ h)

/-- No triple newline in a concatenation means none in its left part. -/
theorem hasTripleNL_left (a : List Char) (b : List Char)
    (h : hasTripleNL (a ++ b) = false) : hasTripleNL a = false := by
  induction a with
  | nil => rfl
  | cons x t ih =>
      cases t with
      | nil => rfl
      | cons y t' =>
          cases t' with
          | nil => rfl
          | cons z t'' =>
              simp only [List.cons_append] at h
              rw [hasTripleNL] at h ⊢
              rcases Bool.or_eq_false_iff.mp h with ⟨h1, h2⟩
              rw [h1, Bool.false_or]
              apply ih
              simp only [List.cons_append]
              exact h2

/-- Once two newlines of a run are kept, what follows starts with none. -/
theorem collapse_head_ge2 (x : List Char) :
    ∀ cnt, 2 ≤ cnt → ∀ r, collapseAux cnt x ≠ '\n' :: r := by
  induction x with
  | nil => intro cnt _ r h; exact List.noConfusion h
  | cons c rest ih =>
      intro cnt h2 r
      by_cases hc : c = '\n'
      · subst hc
        rw [collapseAux, if_pos rfl, if_pos h2]
        exact ih cnt h2 r
      · rw [collapseAux, if_neg hc]
        intro he
        injection he with h1 _
        exact hc h1

/-- Once one newline of a run is kept, what follows never starts with two. -/
theorem collapse_head_ge1 (x : List Char) :
    ∀ cnt, 1 ≤ cnt → ∀ r, collapseAux cnt x ≠ '\n' :: '\n' :: r := by
  induction x with
  | nil => intro cnt _ r h; exact List.noConfusion h
  | cons c rest ih =>
      intro cnt h1 r
      by_cases hc : c = '\n'
      · subst hc
        by_cases h2 : 2 ≤ cnt
        · rw [collapseAux, if_pos rfl, if_pos h2]
          exact ih cnt h1 r
        · rw [collapseAux, if_pos rfl, if_neg h2]
          intro he
          injection he with _ h3
          exact collapse_head_ge2 rest (cnt + 1) (by omega) r h3
      · rw [collapseAux, if_neg hc]
        intro he
        injection he with h3 _
        exact hc h3

/-- Prepending a character preserves triple-newline freedom provided the
character is not a newline or the tail never starts with two newlines. -/
theorem hasTripleNL_cons_of (c : Char) (out : List Char)
    (hw : c ≠ '\n' ∨ ∀ r, out ≠ '\n' :: '\n' :: r)
    (ht : hasTripleNL out = false) : hasTripleNL (c :: out) = false := by
  cases out with
  | nil => rfl
  | cons b t =>
      cases t with
      | nil => rfl
      | cons c2 t' =>
          rw [hasTripleNL, Bool.or_eq_false_iff]
          refine ⟨?_, ht⟩
          rcases hw with hc | hnn
          · simp [hc]
          · by_cases hb : b = '\n'
            · by_cases hc2 : c2 = '\n'
              · exact absurd (by rw [hb, hc2]) (hnn t')
              · simp [hc2]
            · simp [hb]

/-- The collapsed text never contains three consecutive newlines. -/
theorem hasTripleNL_collapse (x : List Char) :
    ∀ cnt, hasTripleNL (collapseAux cnt x) = false := by
  induction x with
  | nil => intro cnt; rfl
  | cons c rest ih =>
      intro cnt
      by_cases hc : c = '\n'
      · subst hc
        by_cases h2 : 2 ≤ cnt
        · rw [collapseAux, if_pos rfl, if_pos h2]
          exact ih cnt
        · rw [collapseAux, if_pos rfl, if_neg h2]
          exact hasTripleNL_cons_of '\n' _
            (Or.inr (collapse_head_ge1 rest (cnt + 1) (by omega))) (ih (cnt + 1))
      · rw [collapseAux, if_neg hc]
        exact hasTripleNL_cons_of c _ (Or.inl hc) (ih 0)

/-- The three normalization facts, for the normalized form of any text:
no leading whitespace, no trailing whitespace, no triple newline. -/
theorem normalizeText_props (l : List Char) :
    hasLeadWS (normalizeText l) = false ∧ hasTrailWS (normalizeText l) = false ∧
      hasTripleNL (normalizeText l) = false := by
  rw [normalizeText, pyStrip]
  set m := (collapseNL l).dropWhile isPyWS with hm
  set z := m.reverse.dropWhile isPyWS with hz
  have hpre : ∃ t, m = z.reverse ++ t := by
    have hsuf : z <:+ m.reverse := List.dropWhile_suffix isPyWS
    have := List.IsSuffix.reverse hsuf
    rw [List.reverse_reverse] at this
    obtain ⟨t, ht⟩ := this
    exact ⟨t, ht.symm⟩
  refine ⟨?_, ?_, ?_⟩
  · exact lead_of_pre _ m hpre (lead_dropWhile _)
  · rw [hasTrailWS, List.reverse_reverse]
    exact lead_dropWhile _
  · have h0 : hasTripleNL (collapseNL l) = false := hasTripleNL_collapse l 0
    have h1 : hasTripleNL m = false := by
      obtain ⟨t, ht⟩ := List.dropWhile_suffix (l := collapseNL l) isPyWS
      rw [hm]
      exact hasTripleNL_right t _ (by rw [ht]; exact h0)
    obtain ⟨t, ht⟩ := hpre
    exact hasTripleNL_left _ t (by rw [← ht]; exact h1)

/-- C10: whatever the parsed page, the extracted text has no leading or
trailing whitespace and no run of three or more consecutive newlines. -/
theorem c10_normalized (soup : Soup) :
    hasLeadWS (bs4_extractor soup) = false ∧
      hasTrailWS (bs4_extractor soup) = false ∧
      hasTripleNL (bs4_extractor soup) = false := by
  rw [bs4_extractor]
  exact normalizeText_props _

/-- C6 (amended): when no node matches the content selector, the extractor
falls back to the text of the whole document — returned through the usual
whitespace normalization, not raw. -/
theorem c6_fallback_whole_text (soup : Soup) (h : noMatchF soup = true) :
    bs4_extractor soup = normalizeText (forestText soup) := by
  rw [bs4_extractor, noMatchF_find soup h]

/-- A document with no matching node whose raw text wears surrounding
whitespace. -/
def c6Soup : Soup := [.element ("div".data) [] [.textNode ("  hi  ".data)]]

theorem c6_fallback_whole_text_witness :
    noMatchF c6Soup = true ∧ bs4_extractor c6Soup = normalizeText (forestText c6Soup) :=
  ⟨rfl, c6_fallback_whole_text c6Soup rfl⟩

/-- C6, as stated, is false: the fallback is normalized, so it differs from
the raw page text whenever the page text has surrounding whitespace.  Here
the raw text is `"  hi  "` but the extractor returns `"hi"`. -/
theorem c6_counterexample :
    noMatchF c6Soup = true ∧
      forestText c6Soup = "  hi  ".data ∧
      bs4_extractor c6Soup = "hi".data ∧
      bs4_extractor c6Soup ≠ forestText c6Soup := by
  refine ⟨rfl, rfl, rfl, ?_⟩
  intro h
  exact absurd h (by decide)

/-- Character-list prefix test, recursing on the pattern first so that a
mismatch inside the known part of a string decides the test. -/
def isPre : List Char → List Char → Bool
  | [], _ => true
  | _ :: _, [] => false
  | p :: ps, c :: cs => (p = c) && isPre ps cs

/-- `isPre p l` holds exactly when `l` extends `p`. -/
theorem isPre_iff (p : List Char) : ∀ l, isPre p l = true ↔ ∃ t, l = p ++ t := by
  induction p with
  | nil =>
      intro l
      constructor
      · intro _; exact ⟨l, rfl⟩
      · intro _; rfl
  | cons x ps ih =>
      intro l
      cases l with
      | nil =>
          constructor
          · intro h; exact Bool.noConfusion h
          · rintro ⟨t, ht⟩; exact List.noConfusion ht
      | cons c cs =>
          rw [isPre, Bool.and_eq_true, decide_eq_true_eq, ih cs]
          constructor
          · rintro ⟨rfl, t, rfl⟩; exact ⟨t, rfl⟩
          · rintro ⟨t, ht⟩
            injection ht with h1 h2
            exact ⟨h1.symm, t, h2⟩

/-- The number of positions of `l` (the end included) at which `p` begins;
the occurrence count of `p` as a substring when `p` is nonempty. -/
def countOccur (p : List Char) : List Char → Nat
  | [] => if isPre p [] then 1 else 0
  | c :: rest => (if isPre p (c :: rest) then 1 else 0) + countOccur p rest

/-- The occurrences of `p` starting inside the front part `a` of `a ++ b`. -/
def auxOcc (p : List Char) : List Char → List Char → Nat
  | [], _ => 0
  | c :: a, b => (if isPre p (c :: (a ++ b)) then 1 else 0) + auxOcc p a b

/-- Occurrences in a concatenation: those starting in the front part plus
those of the back part. -/
theorem countOccur_append (p : List Char) :
    ∀ a b, countOccur p (a ++ b) = auxOcc p a b + countOccur p b := by
  intro a
  induction a with
  | nil => intro b; rw [List.nil_append, auxOcc, Nat.zero_add]
  | cons c a' ih =>
      intro b
      rw [List.cons_append, countOccur, auxOcc, ih b, Nat.add_assoc]

/-- The separator pattern written out. -/
theorem sepPat_eq :
    sepPat = '=' :: '=' :: 'D' :: 'O' :: 'C' :: 'U' :: 'M' :: 'E' :: 'N' :: 'T' :: ' ' :: [] :=
  rfl

/-- No character of the separator pattern is a newline. -/
theorem sepPat_no_nl : ∀ c ∈ sepPat, c ≠ '\n' := by decide

/-- The separator pattern starts with `'='`, so it cannot begin at a
character that is not `'='`. -/
theorem sepPat_not_pre_head (c : Char) (hc : c ≠ '=') (l : List Char) :
    isPre sepPat (c :: l) = false := by
  cases h : isPre sepPat (c :: l) with
  | false => rfl
  | true =>
      obtain ⟨t, ht⟩ := (isPre_iff sepPat (c :: l)).mp h
      rw [sepPat_eq] at ht
      injection ht with h1 _
      exact absurd h1 hc

/-- Digit characters are neither `'='` nor newlines. -/
theorem digitChar_ne (d : Nat) : digitChar d ≠ '=' ∧ digitChar d ≠ '\n' := by
  rw [digitChar]
  cases h : (['0', '1', '2', '3', '4', '5', '6', '7', '8', '9'] : List Char).get? d with
  | none => exact ⟨by decide, by decide⟩
  | some c =>
      have hc : c ∈ (['0', '1', '2', '3', '4', '5', '6', '7', '8', '9'] : List Char) :=
        List.get?_mem h
      have hall : ∀ x ∈ (['0', '1', '2', '3', '4', '5', '6', '7', '8', '9'] : List Char),
          x ≠ '=' ∧ x ≠ '\n' := by decide
      simpa using hall c hc

/-- All characters of a decimal rendering are digits, hence neither `'='`
nor newlines. -/
theorem natDigitsCore_ne :
    ∀ (fuel n : Nat) (acc : List Char), (∀ c ∈ acc, c ≠ '=' ∧ c ≠ '\n') →
      ∀ c ∈ natDigitsCore fuel n acc, c ≠ '=' ∧ c ≠ '\n' := by
  intro fuel
  induction fuel with
  | zero => intro n acc h c hc; exact h c hc
  | succ f ih =>
      intro n acc h c hc
      rw [natDigitsCore] at hc
      by_cases h10 : n < 10
      · rw [if_pos h10] at hc
        rcases List.mem_cons.mp hc with h1 | h1
        · exact h1 ▸ digitChar_ne n
        · exact h c h1
      · rw [if_neg h10] at hc
        refine ih (n / 10) (digitChar (n % 10) :: acc) ?_ c hc
        intro x hx
        rcases List.mem_cons.mp hx with h1 | h1
        · exact h1 ▸ digitChar_ne (n % 10)
        · exact h x h1

theorem natDigits_ne (n : Nat) : ∀ c ∈ natDigits n, c ≠ '=' ∧ c ≠ '\n' :=
  natDigitsCore_ne (n + 1) n [] (by intro c hc; exact absurd hc (List.not_mem_nil c))

/-- No occurrence of the separator pattern starts inside a stretch free of
`'='` characters. -/
theorem auxOcc_no_eq (a : List Char) (h : ∀ c ∈ a, c ≠ '=') (b : List Char) :
    auxOcc sepPat a b = 0 := by
  induction a with
  | nil => rfl
  | cons c a' ih =>
      rw [auxOcc, sepPat_not_pre_head c (h c (List.mem_cons_self c a')) _]
      rw [if_neg (by simp)]
      exact Nat.zero_add _ ▸ ih (fun x hx => h x (List.mem_cons_of_mem c hx))

/-- The separator pattern has no newline, so an occurrence cannot straddle
from `u` into a continuation that opens with a newline. -/
theorem no_straddle (u w : List Char) (h : isPre sepPat u = false) :
    isPre sepPat (u ++ '\n' :: w) = false := by
  cases hcase : isPre sepPat (u ++ '\n' :: w) with
  | false => rfl
  | true =>
      exfalso
      obtain ⟨t, ht⟩ := (isPre_iff _ _).mp hcase
      by_cases hlen : sepPat.length ≤ u.length
      · have hu : u = (sepPat ++ t).take u.length := by
          rw [← ht, List.take_left]
        rw [List.take_append_eq_append_take, List.take_all_of_le hlen] at hu
        have : isPre sepPat u = true := (isPre_iff _ _).mpr ⟨_, hu⟩
        rw [h] at this
        exact Bool.noConfusion this
      · push_neg at hlen
        have hdrop : '\n' :: w = sepPat.drop u.length ++ t := by
          have h1 : (u ++ '\n' :: w).drop u.length = '\n' :: w := List.drop_left u _
          rw [ht] at h1
          rw [List.drop_append_eq_append_drop] at h1
          rw [show u.length - sepPat.length = 0 from by omega, List.drop_zero] at h1
          exact h1.symm
        cases hd : sepPat.drop u.length with
        | nil =>
            have := List.length_drop u.length sepPat
            rw [hd] at this
            simp at this
            omega
        | cons c r =>
            rw [hd, List.cons_append] at hdrop
            injection hdrop with h1 _
            have hcm : c ∈ sepPat := List.drop_subset u.length sepPat (hd ▸ List.mem_cons_self c r)
            exact sepPat_no_nl c hcm h1.symm

/-- No occurrence of the separator pattern starts inside a clean document
text that is followed by a newline. -/
theorem auxOcc_clean_nl (d : List Char) (hc : countOccur sepPat d = 0) :
    ∀ z, auxOcc sepPat d ('\n' :: z) = 0 := by
  induction d with
  | nil => intro z; rfl
  | cons c d' ih =>
      intro z
      rw [countOccur] at hc
      have h1 : isPre sepPat (c :: d') = false := by
        cases h : isPre sepPat (c :: d') with
        | false => rfl
        | true => rw [h, if_pos rfl] at hc; omega
      have h2 : countOccur sepPat d' = 0 := by
        rcases Nat.add_eq_zero.mp hc with ⟨_, h2⟩
        exact h2
      rw [auxOcc]
      have hstr : isPre sepPat ((c :: d') ++ '\n' :: z) = false := no_straddle _ _ h1
      rw [List.cons_append] at hstr
      rw [hstr, if_neg (by simp), Nat.zero_add]
      exact ih h2 z

/-- Exactly one occurrence of the separator pattern starts inside the
pattern itself, whatever follows: the pattern has no nontrivial border. -/
theorem auxOcc_self (b : List Char) : auxOcc sepPat sepPat b = 1 := rfl

/-- Stepping over the `"==\n"` that closes a separator: no occurrence
starts in it. -/
theorem countOccur_eqeqnl (t : List Char) :
    countOccur sepPat ('=' :: '=' :: '\n' :: t) = countOccur sepPat t := by
  have h : countOccur sepPat ('=' :: '=' :: '\n' :: t) =
      0 + (0 + (0 + countOccur sepPat t)) := rfl
  omega

/-- Stepping over the `"\n\n"` joiner: no occurrence starts in it. -/
theorem countOccur_nl2 (t : List Char) :
    countOccur sepPat ('\n' :: '\n' :: t) = countOccur sepPat t := by
  have h : countOccur sepPat ('\n' :: '\n' :: t) = 0 + (0 + countOccur sepPat t) := rfl
  omega

/-- A full separator block header contributes exactly one occurrence. -/
theorem count_header (n : Nat) (t : List Char) :
    countOccur sepPat (sepPat ++ (natDigits n ++ ('=' :: '=' :: '\n' :: t))) =
      1 + countOccur sepPat t := by
  rw [countOccur_append, auxOcc_self, countOccur_append]
  rw [auxOcc_no_eq (natDigits n) (fun c hc => (natDigits_ne n c hc).1)]
  rw [countOccur_eqeqnl, Nat.zero_add]

/-- The joined output of the blocks numbered from `n` contains exactly one
separator occurrence per document, provided no document text contains the
separator pattern itself. -/
theorem main_count (docs : List (List Char)) :
    ∀ n, (∀ d ∈ docs, countOccur sepPat d = 0) →
      countOccur sepPat (pyJoin nl2 (blocksFrom n docs)) = docs.length := by
  induction docs with
  | nil => intro n _; rfl
  | cons d rest ih =>
      intro n h
      cases rest with
      | nil =>
          show countOccur sepPat (docBlock n d) = 1
          rw [docBlock, List.append_assoc, count_header,
            h d (List.mem_cons_self d []), ]
      | cons d2 rest2 =>
          have hj : pyJoin nl2 (blocksFrom n (d :: d2 :: rest2)) =
              docBlock n d ++ nl2 ++ pyJoin nl2 (blocksFrom (n + 1) (d2 :: rest2)) := rfl
          rw [hj]
          have hassoc : docBlock n d ++ nl2 ++ pyJoin nl2 (blocksFrom (n + 1) (d2 :: rest2)) =
              sepPat ++ (natDigits n ++ ('=' :: '=' :: '\n' ::
                (d ++ '\n' :: '\n' :: pyJoin nl2 (blocksFrom (n + 1) (d2 :: rest2))))) := by
            simp [docBlock, nl2, List.append_assoc]
          rw [hassoc, count_header, countOccur_append,
            auxOcc_clean_nl d (h d (List.mem_cons_self d _)) _,
            countOccur_nl2,
            ih (n + 1) (fun x hx => h x (List.mem_cons_of_mem d hx))]
          simp [Nat.add_comm]

/-- Each numbered block (the separator immediately followed by a newline and
the corresponding document text) occurs in the joined output. -/
theorem block_infix (docs : List (List Char)) :
    ∀ n i (h : i < docs.length), ∃ s t,
      pyJoin nl2 (blocksFrom n docs) = s ++ docBlock (n + i) (docs.get ⟨i, h⟩) ++ t := by
  induction docs with
  | nil => intro n i h; exact absurd h (by simp)
  | cons d rest ih =>
      intro n i h
      cases i with
      | zero =>
          cases rest with
          | nil =>
              refine ⟨[], [], ?_⟩
              show docBlock n d = [] ++ docBlock (n + 0) d ++ []
              simp
          | cons d2 rest2 =>
              refine ⟨[], nl2 ++ pyJoin nl2 (blocksFrom (n + 1) (d2 :: rest2)), ?_⟩
              show docBlock n d ++ nl2 ++ pyJoin nl2 (blocksFrom (n + 1) (d2 :: rest2)) =
                [] ++ docBlock (n + 0) d ++ (nl2 ++ pyJoin nl2 (blocksFrom (n + 1) (d2 :: rest2)))
              simp [List.append_assoc]
      | succ i' =>
          cases rest with
          | nil => simp at h
          | cons d2 rest2 =>
              have h' : i' < (d2 :: rest2).length := by simp at h ⊢; omega
              obtain ⟨s, t, hst⟩ := ih (n + 1) i' h'
              refine ⟨docBlock n d ++ nl2 ++ s, t, ?_⟩
              show docBlock n d ++ nl2 ++ pyJoin nl2 (blocksFrom (n + 1) (d2 :: rest2)) = _
              rw [hst]
              rw [show n + 1 + i' = n + (i' + 1) from by omega]
              simp [List.append_assoc]

/-- C5 (amended): provided no retrieved document's text itself contains the
separator pattern `"==DOCUMENT "`, the text block holds exactly `k`
occurrences of the pattern for `k` retrieved documents, each beginning a
separator `==DOCUMENT i==` (`i = 1..k`) that is immediately followed by a
newline and the `i`-th document's text; and the tool builds this block from
the retriever's answer for `k = 3`. -/
theorem c5_separators (docs : List (List Char))
    (hclean : ∀ d ∈ docs, countOccur sepPat d = 0) :
    countOccur sepPat (formatted_context docs) = docs.length ∧
      (∀ i (h : i < docs.length), ∃ s t,
        formatted_context docs = s ++ docBlock (i + 1) (docs.get ⟨i, h⟩) ++ t) ∧
      ∀ fs sim q vs, load_vectorstore fs = some vs →
        langgraph_query_tool fs sim q =
          .ok (formatted_context
            ((similarity_search sim vs q 3).map Document.page_content)) := by
  refine ⟨main_count docs 1 hclean, ?_, ?_⟩
  · intro i h
    obtain ⟨s, t, hst⟩ := block_infix docs 1 i h
    rw [show (1 : Nat) + i = i + 1 from Nat.add_comm 1 i] at hst
    exact ⟨s, t, hst⟩
  · intro fs sim q vs h
    rw [langgraph_query_tool, h]

/-- Two ordinary documents exercising `c5_separators`. -/
def c5Docs : List (List Char) := ["hello".data, "world".data]

theorem c5_separators_witness :
    (∀ d ∈ c5Docs, countOccur sepPat d = 0) ∧
      (countOccur sepPat (formatted_context c5Docs) = c5Docs.length ∧
        (∀ i (h : i < c5Docs.length), ∃ s t,
          formatted_context c5Docs = s ++ docBlock (i + 1) (c5Docs.get ⟨i, h⟩) ++ t) ∧
        ∀ fs sim q vs, load_vectorstore fs = some vs →
          langgraph_query_tool fs sim q =
            .ok (formatted_context
              ((similarity_search sim vs q 3).map Document.page_content))) :=
  ⟨by decide, c5_separators c5Docs (by decide)⟩

/-- A single retrieved document whose text already contains a separator. -/
def c5CxDocs : List (List Char) := [("==DOCUMENT 1==\nfoo").data]

/-- C5, as stated, is false: for this one-document retrieval the text block
contains two occurrences of the separator `==DOCUMENT 1==`, not exactly one,
because the document text itself carries one. -/
theorem c5_counterexample :
    c5CxDocs.length = 1 ∧
      countOccur ("==DOCUMENT 1==".data) (formatted_context c5CxDocs) = 2 := by
  exact ⟨rfl, by decide⟩
